import Mathlib

/-!
# MemLoc: the todo list of `web/src/App.js`

A shallow embedding of the three React components of `App.js`:

* `App` owns the array `todos` and the operations `addTodo`, `markTodo`, `removeTodo`;
* `FormTodo` owns the two text fields `value`, `locatio` and `handleSubmit`;
* `Todo` renders one record and triggers `markTodo(index)` / `removeTodo(index)`.

Arrays are lists, strings are `String`, a property that an object literal does not
set is `none`, and a JavaScript exception is the `error` case of `Except`.
Every record of the array is an object created by its own object literal (the one of
the initial state, or the one of `addTodo`) and the operations only copy, extend or
splice the array, so no object occurs at two positions: writing a property of
`newTodos[index]` changes the record at `index` and no other.
-/

set_option autoImplicit false

namespace MemLoc

/-! ## Data model -/

/-- A todo record, with the property names of `App.js`. `isDone` is `none` when the
object carries no `isDone` property, which JavaScript reads as `undefined`. -/
structure Todo where
  text : String
  locationi : String
  isDone : Option Bool
deriving DecidableEq, Repr

/-- The exception a JavaScript operation can raise here. -/
inductive JsError where
  | typeError
deriving DecidableEq, Repr

/-- The state of the page: `todos` of `App`, and `value`, `locatio` of `FormTodo`. -/
structure AppState where
  todos : List Todo
  value : String
  locatio : String
deriving DecidableEq, Repr

/-! ## JavaScript array primitives -/

/-- The read `arr[index]` of an array at an integer index: `undefined` (here `none`)
unless `0 ≤ index < arr.length`. -/
def arrayGet {α : Type} (arr : List α) (index : Int) : Option α :=
  if index < 0 then none else arr[index.toNat]?

/-- The array after `arr.splice(start, deleteCount)` with no inserted items, following
ECMAScript: a negative `start` counts from the end and is clamped at `0`, a `start`
past the end is clamped at the length, and `deleteCount` is clamped to what is left. -/
def splice {α : Type} (arr : List α) (start deleteCount : Int) : List α :=
  let len : Int := arr.length
  let actualStart : Int := if start < 0 then max (len + start) 0 else min start len
  let actualDeleteCount : Int := min (max deleteCount 0) (len - actualStart)
  arr.take actualStart.toNat ++ arr.drop (actualStart + actualDeleteCount).toNat

/-! ## The list container `App` -/

/-- The initial value of `todos` in `App`. -/
def initialTodos : List Todo :=
  [{ text := "Pick up dog", locationi := "Goomer", isDone := some false }]

/-- The page as first rendered: the initial `todos`, both fields empty. -/
def initialState : AppState :=
  { todos := initialTodos, value := "", locatio := "" }

/-- `addTodo(text, locationi)`: the new array is `[...todos, { text, locationi }]`.
The object literal sets no `isDone` property. -/
def addTodo (todos : List Todo) (text locationi : String) : List Todo :=
  todos ++ [{ text := text, locationi := locationi, isDone := none }]

/-- `markTodo(index)`: copy the array, then `newTodos[index].isDone = true`. When
`newTodos[index]` is `undefined` the assignment raises a `TypeError`. -/
def markTodo (todos : List Todo) (index : Int) : Except JsError (List Todo) :=
  let newTodos := todos
  match arrayGet newTodos index with
  | none => Except.error JsError.typeError
  | some todo => Except.ok (newTodos.set index.toNat { todo with isDone := some true })

/-- `removeTodo(index)`: copy the array, then `newTodos.splice(index, 1)`. -/
def removeTodo (todos : List Todo) (index : Int) : List Todo :=
  let newTodos := todos
  splice newTodos index 1

/-! ## The entry form `FormTodo` -/

/-- `setValue(e.target.value)`, the change handler of the description field. -/
def setValue (s : AppState) (v : String) : AppState :=
  { s with value := v }

/-- `setLocation(e.target.value)`, the change handler of the location field. -/
def setLocation (s : AppState) (v : String) : AppState :=
  { s with locatio := v }

/-- `handleSubmit`: return at once on an empty `value`; otherwise call `addTodo` with
`value` and either `locatio` or the string `"locatiotrss"`, and empty both fields. -/
def handleSubmit (s : AppState) : AppState :=
  if s.value = "" then s
  else if s.locatio = "" then
    { todos := addTodo s.todos s.value "locatiotrss", value := "", locatio := "" }
  else
    { todos := addTodo s.todos s.value s.locatio, value := "", locatio := "" }

/-- One form submission: the user types `description` and `location` into the two
fields and submits. -/
def submit (s : AppState) (description location : String) : AppState :=
  handleSubmit (setLocation (setValue s description) location)

/-- A run of form submissions, one after another. -/
def submitAll (s : AppState) : List (String × String) → AppState
  | [] => s
  | (description, location) :: rest => submitAll (submit s description location) rest

/-! ## Events of the page -/

/-- What the rendered page lets a user do: type into either field, submit the form,
or press the mark or the remove button of the row at `index`. -/
inductive Event where
  | typeValue (v : String)
  | typeLocation (v : String)
  | submitForm
  | clickMark (index : Nat)
  | clickRemove (index : Nat)
deriving DecidableEq, Repr

/-- The handler that an event runs, on the state of the page. -/
def step (s : AppState) : Event → Except JsError AppState
  | Event.typeValue v => Except.ok (setValue s v)
  | Event.typeLocation v => Except.ok (setLocation s v)
  | Event.submitForm => Except.ok (handleSubmit s)
  | Event.clickMark index =>
    match markTodo s.todos (index : Int) with
    | Except.ok newTodos => Except.ok { s with todos := newTodos }
    | Except.error err => Except.error err
  | Event.clickRemove index => Except.ok { s with todos := removeTodo s.todos (index : Int) }

/-- An event the page offers in state `s`: `todos.map` renders one row, with its two
buttons, for each position below the length. -/
def Event.enabled (s : AppState) : Event → Bool
  | Event.clickMark index => decide (index < s.todos.length)
  | Event.clickRemove index => decide (index < s.todos.length)
  | _ => true

/-- The state after a sequence of events, stopping at the first exception. -/
def run (s : AppState) : List Event → Except JsError AppState
  | [] => Except.ok s
  | e :: rest =>
    match step s e with
    | Except.ok s1 => run s1 rest
    | Except.error err => Except.error err

/-- Every event of the sequence is offered by the page at the moment it happens. -/
def enabledRun (s : AppState) : List Event → Bool
  | [] => true
  | e :: rest =>
    e.enabled s &&
      match step s e with
      | Except.ok s1 => enabledRun s1 rest
      | Except.error _ => false

/-! ## Calls of the container operations -/

/-- A call of one of the three operations of `App`. -/
inductive Op where
  | add (text locationi : String)
  | mark (index : Nat)
  | remove (index : Nat)
deriving DecidableEq, Repr

/-- The list after the call, or the exception the call raises. -/
def Op.apply (todos : List Todo) : Op → Except JsError (List Todo)
  | Op.add text locationi => Except.ok (addTodo todos text locationi)
  | Op.mark index => markTodo todos (index : Int)
  | Op.remove index => Except.ok (removeTodo todos (index : Int))

/-- The index of the call, if it has one, is a position of the list. -/
def Op.valid (todos : List Todo) : Op → Bool
  | Op.add _ _ => true
  | Op.mark index => decide (index < todos.length)
  | Op.remove index => decide (index < todos.length)

/-- Where the record at position `j` stands after a call with a valid index: `add` and
`mark` move nothing, `remove index` deletes position `index` and shifts the later
positions down by one. -/
def Op.track : Op → Nat → Option Nat
  | Op.add _ _, j => some j
  | Op.mark _, j => some j
  | Op.remove index, j =>
    if j < index then some j else if j = index then none else some (j - 1)

/-- The list after a sequence of calls, stopping at the first exception. -/
def runOps (todos : List Todo) : List Op → Except JsError (List Todo)
  | [] => Except.ok todos
  | op :: rest =>
    match op.apply todos with
    | Except.ok newTodos => runOps newTodos rest
    | Except.error err => Except.error err

/-- Every call of the sequence has a valid index for the list it is made on. -/
def validOps (todos : List Todo) : List Op → Bool
  | [] => true
  | op :: rest =>
    op.valid todos &&
      match op.apply todos with
      | Except.ok newTodos => validOps newTodos rest
      | Except.error _ => false

/-- Where the record at position `j` stands after a sequence of calls, `none` once it
has been removed. -/
def trackOps : List Op → Nat → Option Nat
  | [], j => some j
  | op :: rest, j =>
    match op.track j with
    | some j1 => trackOps rest j1
    | none => none

/-! ## Array primitives at a position -/

theorem arrayGet_natCast {α : Type} (arr : List α) (i : Nat) :
    arrayGet arr (i : Int) = arr[i]? := by
  simp [arrayGet]

theorem arrayGet_of_not_inRange {α : Type} (arr : List α) (index : Int)
    (h : ¬ (0 ≤ index ∧ index < (arr.length : Int))) : arrayGet arr index = none := by
  unfold arrayGet
  split
  · rfl
  · rename_i h0
    have h1 : (arr.length : Int) ≤ index := by omega
    have h2 : arr.length ≤ index.toNat := by omega
    exact List.getElem?_eq_none h2

theorem splice_one_natCast {α : Type} (arr : List α) (i : Nat) :
    splice arr (i : Int) 1 = arr.eraseIdx i := by
  unfold splice
  by_cases h : i < arr.length
  · have e1 : (if (i : Int) < 0 then max ((arr.length : Int) + i) 0
        else min (i : Int) (arr.length : Int)) = (i : Int) := by
      rw [if_neg (by omega)]; omega
    have e2 : min (max (1 : Int) 0) ((arr.length : Int) - (i : Int)) = 1 := by omega
    simp only [e1, e2]
    rw [List.eraseIdx_eq_take_drop_succ]
    rfl
  · have e1 : (if (i : Int) < 0 then max ((arr.length : Int) + i) 0
        else min (i : Int) (arr.length : Int)) = (arr.length : Int) := by
      rw [if_neg (by omega)]; omega
    have e2 : min (max (1 : Int) 0) ((arr.length : Int) - (arr.length : Int)) = 0 := by omega
    simp only [e1, e2]
    rw [List.eraseIdx_of_length_le (by omega)]
    simp

theorem removeTodo_natCast (todos : List Todo) (i : Nat) :
    removeTodo todos (i : Int) = todos.eraseIdx i := by
  unfold removeTodo
  exact splice_one_natCast todos i

theorem markTodo_natCast (todos : List Todo) (i : Nat) (h : i < todos.length) :
    markTodo todos (i : Int) =
      Except.ok (todos.set i { todos[i] with isDone := some true }) := by
  unfold markTodo
  simp [arrayGet_natCast, List.getElem?_eq_getElem h]

theorem markTodo_of_not_inRange (todos : List Todo) (index : Int)
    (h : ¬ (0 ≤ index ∧ index < (todos.length : Int))) :
    markTodo todos index = Except.error JsError.typeError := by
  unfold markTodo
  simp only [arrayGet_of_not_inRange todos index h]

theorem addTodo_eq_append (todos : List Todo) (text locationi : String) :
    addTodo todos text locationi =
      todos ++ [{ text := text, locationi := locationi, isDone := none }] := rfl

theorem length_addTodo (todos : List Todo) (text locationi : String) :
    (addTodo todos text locationi).length = todos.length + 1 := by
  simp [addTodo]

theorem eraseIdx_set_append_singleton {α : Type} (l : List α) (a b : α) :
    ((l ++ [a]).set l.length b).eraseIdx l.length = l := by
  induction l with
  | nil => rfl
  | cons x xs ih => simpa using ih

theorem getElem?_lt_length {α : Type} {l : List α} {j : Nat} {a : α}
    (h : l[j]? = some a) : j < l.length := by
  by_contra hn
  rw [List.getElem?_eq_none (by omega)] at h
  cases h

/-! ## The container operations -/

/-- C1 (as the code has it): for every list and every pair of strings, `addTodo` yields
the list followed by exactly one new record with the given text and location, the old
records unchanged in their positions; the new record carries no `isDone` property
(`undefined`), so its `isDone` is not the boolean `false`. -/
theorem addTodo_record_has_no_isDone (L : List Todo) (text location : String) :
    ∃ r : Todo, addTodo L text location = L ++ [r] ∧
      r.text = text ∧ r.locationi = location ∧
      r.isDone = none ∧ r.isDone ≠ some false ∧
      (addTodo L text location).length = L.length + 1 ∧
      (∀ j, j < L.length → (addTodo L text location)[j]? = L[j]?) := by
  refine ⟨{ text := text, locationi := location, isDone := none }, rfl, rfl, rfl, rfl,
    by simp, length_addTodo L text location, ?_⟩
  intro j hj
  rw [addTodo_eq_append, List.getElem?_append_left hj]

/-- C2: for a non-empty description, `handleSubmit` appends exactly one record to the
end of the list, with the description as text and with the location field as location,
or the fixed string `"locatiotrss"` when the location field is empty; afterwards both
form fields are empty. -/
theorem handleSubmit_appends_record (L : List Todo) (value locatio : String)
    (hv : value ≠ "") :
    ∃ r : Todo,
      (handleSubmit { todos := L, value := value, locatio := locatio }).todos = L ++ [r] ∧
      r.text = value ∧
      r.locationi = (if locatio = "" then "locatiotrss" else locatio) ∧
      (handleSubmit { todos := L, value := value, locatio := locatio }).value = "" ∧
      (handleSubmit { todos := L, value := value, locatio := locatio }).locatio = "" := by
  by_cases hl : locatio = ""
  · refine ⟨{ text := value, locationi := "locatiotrss", isDone := none }, ?_, rfl, ?_, ?_, ?_⟩ <;>
      simp [handleSubmit, hv, hl, addTodo]
  · refine ⟨{ text := value, locationi := locatio, isDone := none }, ?_, rfl, ?_, ?_, ?_⟩ <;>
      simp [handleSubmit, hv, hl, addTodo]

/-- Witness of C2: description "Buy milk", empty location, on the initial list. -/
theorem handleSubmit_appends_record_witness :
    ∃ r : Todo,
      (handleSubmit { todos := initialTodos, value := "Buy milk", locatio := "" }).todos =
        initialTodos ++ [r] ∧
      r.text = "Buy milk" ∧
      r.locationi = (if "" = "" then "locatiotrss" else "") ∧
      (handleSubmit { todos := initialTodos, value := "Buy milk", locatio := "" }).value = "" ∧
      (handleSubmit { todos := initialTodos, value := "Buy milk", locatio := "" }).locatio = "" :=
  handleSubmit_appends_record initialTodos "Buy milk" "" (by decide)

/-- C3: with an empty description `handleSubmit` returns before any call of `addTodo`:
the list is unchanged, nothing is raised, and both form fields keep their contents, the
location field included. -/
theorem handleSubmit_empty_description (L : List Todo) (locatio : String) :
    handleSubmit { todos := L, value := "", locatio := locatio } =
      { todos := L, value := "", locatio := locatio } := by
  simp [handleSubmit]

/-- C4: for a valid index `i`, `markTodo(i)` succeeds with a list of the same length
whose record at `i` has `isDone = true` and whose records elsewhere have the `isDone`
they had; a second `markTodo(i)` changes nothing. -/
theorem markTodo_sets_only_index (L : List Todo) (i : Nat) (hi : i < L.length) :
    ∃ L1 : List Todo, markTodo L (i : Int) = Except.ok L1 ∧
      L1.length = L.length ∧
      L1[i]?.map Todo.isDone = some (some true) ∧
      (∀ j, j ≠ i → L1[j]?.map Todo.isDone = L[j]?.map Todo.isDone) ∧
      markTodo L1 (i : Int) = Except.ok L1 := by
  refine ⟨L.set i { L[i] with isDone := some true }, markTodo_natCast L i hi, by simp,
    ?_, ?_, ?_⟩
  · simp [List.getElem?_set, hi]
  · intro j hj
    rw [List.getElem?_set_ne (Ne.symm hj)]
  · rw [markTodo_natCast _ i (by simpa using hi)]
    simp

/-- Witness of C4: marking the only record of the initial list. -/
theorem markTodo_sets_only_index_witness :
    ∃ L1 : List Todo, markTodo initialTodos ((0 : Nat) : Int) = Except.ok L1 ∧
      L1.length = initialTodos.length ∧
      L1[0]?.map Todo.isDone = some (some true) ∧
      (∀ j, j ≠ 0 → L1[j]?.map Todo.isDone = initialTodos[j]?.map Todo.isDone) ∧
      markTodo L1 ((0 : Nat) : Int) = Except.ok L1 :=
  markTodo_sets_only_index initialTodos 0 (by decide)

/-- C5: for a valid index `i`, `removeTodo(i)` yields a list one shorter that agrees
with the old list below `i` and with the old list shifted down by one from `i` on. -/
theorem removeTodo_shifts_down (L : List Todo) (i : Nat) (hi : i < L.length) :
    (removeTodo L (i : Int)).length = L.length - 1 ∧
      (∀ j, j < i → (removeTodo L (i : Int))[j]? = L[j]?) ∧
      (∀ j, i ≤ j → (removeTodo L (i : Int))[j]? = L[j + 1]?) := by
  rw [removeTodo_natCast]
  refine ⟨List.length_eraseIdx_of_lt hi, ?_, ?_⟩
  · intro j hj
    exact List.getElem?_eraseIdx_of_lt L i j hj
  · intro j hj
    exact List.getElem?_eraseIdx_of_ge L i j hj

/-- Witness of C5: removing the first of two records. -/
theorem removeTodo_shifts_down_witness :
    (removeTodo (addTodo initialTodos "Buy milk" "Store") ((0 : Nat) : Int)).length =
        (addTodo initialTodos "Buy milk" "Store").length - 1 ∧
      (∀ j, j < 0 → (removeTodo (addTodo initialTodos "Buy milk" "Store") ((0 : Nat) : Int))[j]? =
        (addTodo initialTodos "Buy milk" "Store")[j]?) ∧
      (∀ j, 0 ≤ j → (removeTodo (addTodo initialTodos "Buy milk" "Store") ((0 : Nat) : Int))[j]? =
        (addTodo initialTodos "Buy milk" "Store")[j + 1]?) :=
  removeTodo_shifts_down (addTodo initialTodos "Buy milk" "Store") 0 (by decide)

/-- C7: adding a record to a list of length `n`, marking position `n` and removing
position `n` gives back the list, in length and contents. -/
theorem add_mark_remove_roundtrip (L : List Todo) (text location : String) :
    ∃ L1 : List Todo,
      markTodo (addTodo L text location) (L.length : Int) = Except.ok L1 ∧
      removeTodo L1 (L.length : Int) = L ∧
      (removeTodo L1 (L.length : Int)).length = L.length := by
  have hlt : L.length < (addTodo L text location).length := by
    rw [length_addTodo]; exact Nat.lt_succ_self _
  refine ⟨_, markTodo_natCast _ L.length hlt, ?_⟩
  have h : removeTodo ((addTodo L text location).set L.length
      { (addTodo L text location)[L.length] with isDone := some true }) (L.length : Int) = L := by
    rw [removeTodo_natCast]
    exact eraseIdx_set_append_singleton L _ _
  exact ⟨h, by rw [h]⟩

/-! ## Sequences of form submissions -/

theorem submit_todos (s : AppState) (description location : String) :
    (submit s description location).todos =
      s.todos ++ (if description = "" then []
        else [{ text := description,
                locationi := if location = "" then "locatiotrss" else location,
                isDone := none }]) := by
  by_cases hd : description = ""
  · simp [submit, handleSubmit, setValue, setLocation, hd]
  · by_cases hl : location = "" <;>
      simp [submit, handleSubmit, setValue, setLocation, hd, hl, addTodo]

theorem submitAll_todos (subs : List (String × String)) (s : AppState) :
    (submitAll s subs).todos =
      s.todos ++ (subs.filter (fun p => decide (p.1 ≠ ""))).map
        (fun p => ({ text := p.1,
                     locationi := if p.2 = "" then "locatiotrss" else p.2,
                     isDone := none } : Todo)) := by
  induction subs generalizing s with
  | nil => simp [submitAll]
  | cons p rest ih =>
    obtain ⟨d, l⟩ := p
    rw [submitAll, ih, submit_todos]
    by_cases hd : d = "" <;> simp [hd]

/-- C6, as stated, fails: after the single submission ("Buy milk", "") from the initial
state the list holds two records, while one submission has a non-empty description. -/
theorem submitAll_length_counterexample :
    (submitAll initialState [("Buy milk", "")]).todos.length ≠
      [("Buy milk", "")].countP (fun p => decide (p.1 ≠ "")) := by
  decide

/-- C6 (amended): after any finite sequence of form submissions from the initial state,
the list is the one initial record followed by one record for each submission with a
non-empty description, in the order of the submissions; its length is one plus the
number of those submissions. -/
theorem submitAll_from_initialState (subs : List (String × String)) :
    (submitAll initialState subs).todos =
        initialTodos ++ (subs.filter (fun p => decide (p.1 ≠ ""))).map
          (fun p => ({ text := p.1,
                       locationi := if p.2 = "" then "locatiotrss" else p.2,
                       isDone := none } : Todo)) ∧
      (submitAll initialState subs).todos.length =
        1 + subs.countP (fun p => decide (p.1 ≠ "")) := by
  have h := submitAll_todos subs initialState
  refine ⟨h, ?_⟩
  rw [h, List.countP_eq_length_filter]
  simp [initialState, initialTodos, Nat.add_comm]

/-! ## The invariant of the records -/

theorem step_preserves_nonempty (s s1 : AppState) (e : Event)
    (hinv : ∀ r ∈ s.todos, r.text ≠ "" ∧ r.locationi ≠ "")
    (hstep : step s e = Except.ok s1) :
    ∀ r ∈ s1.todos, r.text ≠ "" ∧ r.locationi ≠ "" := by
  cases e with
  | typeValue v =>
    simp only [step, Except.ok.injEq] at hstep
    subst hstep
    exact hinv
  | typeLocation v =>
    simp only [step, Except.ok.injEq] at hstep
    subst hstep
    exact hinv
  | submitForm =>
    simp only [step, Except.ok.injEq] at hstep
    subst hstep
    intro r hr
    unfold handleSubmit at hr
    by_cases hv : s.value = ""
    · rw [if_pos hv] at hr
      exact hinv r hr
    · rw [if_neg hv] at hr
      by_cases hl : s.locatio = ""
      · rw [if_pos hl] at hr
        simp only [addTodo, List.mem_append, List.mem_singleton] at hr
        rcases hr with hr | hr
        · exact hinv r hr
        · subst hr
          exact ⟨hv, show ("locatiotrss" : String) ≠ "" by decide⟩
      · rw [if_neg hl] at hr
        simp only [addTodo, List.mem_append, List.mem_singleton] at hr
        rcases hr with hr | hr
        · exact hinv r hr
        · subst hr
          exact ⟨hv, hl⟩
  | clickMark index =>
    simp only [step] at hstep
    by_cases hi : index < s.todos.length
    · rw [markTodo_natCast s.todos index hi] at hstep
      simp only [Except.ok.injEq] at hstep
      subst hstep
      intro r hr
      rcases List.mem_or_eq_of_mem_set hr with h | h
      · exact hinv r h
      · subst h
        exact hinv s.todos[index] (List.getElem_mem hi)
    · rw [markTodo_of_not_inRange s.todos (index : Int) (by omega)] at hstep
      cases hstep
  | clickRemove index =>
    simp only [step, Except.ok.injEq] at hstep
    subst hstep
    intro r hr
    simp only [removeTodo_natCast] at hr
    exact hinv r (List.mem_of_mem_eraseIdx hr)

theorem step_ok_of_enabled (s : AppState) (e : Event) (h : e.enabled s = true) :
    ∃ s1, step s e = Except.ok s1 := by
  cases e with
  | typeValue v => exact ⟨_, rfl⟩
  | typeLocation v => exact ⟨_, rfl⟩
  | submitForm => exact ⟨_, rfl⟩
  | clickMark index =>
    have hi : index < s.todos.length := by simpa [Event.enabled] using h
    refine ⟨{ s with todos := s.todos.set index { s.todos[index] with isDone := some true } }, ?_⟩
    simp only [step, markTodo_natCast s.todos index hi]
  | clickRemove index => exact ⟨_, rfl⟩

theorem run_preserves_nonempty (events : List Event) (s : AppState)
    (hinv : ∀ r ∈ s.todos, r.text ≠ "" ∧ r.locationi ≠ "")
    (hen : enabledRun s events = true) :
    ∃ s1, run s events = Except.ok s1 ∧ ∀ r ∈ s1.todos, r.text ≠ "" ∧ r.locationi ≠ "" := by
  induction events generalizing s with
  | nil => exact ⟨s, rfl, hinv⟩
  | cons e rest ih =>
    simp only [enabledRun, Bool.and_eq_true] at hen
    obtain ⟨he, hrest⟩ := hen
    obtain ⟨s1, hs1⟩ := step_ok_of_enabled s e he
    rw [hs1] at hrest
    obtain ⟨s2, hrun, hinv2⟩ := ih s1 (step_preserves_nonempty s s1 e hinv hs1) hrest
    exact ⟨s2, by simp only [run, hs1, hrun], hinv2⟩

/-- C8: every sequence of events that the page offers (typing, form submissions, mark
and remove on an existing row) runs from the initial state without an exception, and in
the state it reaches every record has a non-empty text and a non-empty location. -/
theorem reachable_records_nonempty (events : List Event)
    (hen : enabledRun initialState events = true) :
    ∃ s, run initialState events = Except.ok s ∧
      ∀ r ∈ s.todos, r.text ≠ "" ∧ r.locationi ≠ "" := by
  apply run_preserves_nonempty events initialState _ hen
  intro r hr
  simp only [initialState, initialTodos, List.mem_singleton] at hr
  subst hr
  exact ⟨by decide, by decide⟩

/-- Witness of C8: type a description, submit with an empty location, submit again with
both fields empty, mark the new row, remove the first row. -/
theorem reachable_records_nonempty_witness :
    ∃ s, run initialState [Event.typeValue "Buy milk", Event.submitForm, Event.submitForm,
        Event.clickMark 1, Event.clickRemove 0] = Except.ok s ∧
      ∀ r ∈ s.todos, r.text ≠ "" ∧ r.locationi ≠ "" :=
  reachable_records_nonempty [Event.typeValue "Buy milk", Event.submitForm, Event.submitForm,
    Event.clickMark 1, Event.clickRemove 0] (by decide)

/-! ## Done records stay done -/

theorem set_isDone_of_done (t : Todo) (h : t.isDone = some true) :
    ({ t with isDone := some true } : Todo) = t := by
  cases t
  simp_all

theorem markTodo_keeps_done (L : List Todo) (i : Nat) (hi : i < L.length) :
    ∃ L1, markTodo L (i : Int) = Except.ok L1 ∧
      ∀ (j : Nat) (t : Todo), L[j]? = some t → t.isDone = some true → L1[j]? = some t := by
  refine ⟨_, markTodo_natCast L i hi, ?_⟩
  intro j t hj ht
  by_cases hji : i = j
  · subst hji
    have hget : L[i] = t := by
      rw [List.getElem?_eq_getElem hi] at hj
      exact Option.some.inj hj
    rw [List.getElem?_set_self hi, hget, set_isDone_of_done t ht]
  · rw [List.getElem?_set_ne hji]
    exact hj

theorem removeTodo_keeps_done (L : List Todo) (i j : Nat) (t : Todo) (hj : L[j]? = some t) :
    (j < i → (removeTodo L (i : Int))[j]? = some t) ∧
      (i < j → (removeTodo L (i : Int))[j - 1]? = some t) := by
  rw [removeTodo_natCast]
  constructor
  · intro h
    rw [List.getElem?_eraseIdx_of_lt L i j h]
    exact hj
  · intro h
    rw [List.getElem?_eraseIdx_of_ge L i (j - 1) (by omega)]
    have e : j - 1 + 1 = j := by omega
    rw [e]
    exact hj

theorem apply_keeps_done (L : List Todo) (op : Op) (hv : op.valid L = true) :
    ∃ L1, op.apply L = Except.ok L1 ∧
      ∀ (j : Nat) (t : Todo) (j1 : Nat), L[j]? = some t → t.isDone = some true → op.track j = some j1 →
        L1[j1]? = some t := by
  cases op with
  | add text locationi =>
    refine ⟨_, rfl, ?_⟩
    intro j t j1 hj _ htr
    simp only [Op.track, Option.some.injEq] at htr
    subst htr
    have hlt : j < L.length := getElem?_lt_length hj
    rw [addTodo_eq_append, List.getElem?_append_left hlt]
    exact hj
  | mark index =>
    have hi : index < L.length := by simpa [Op.valid] using hv
    obtain ⟨L1, h1, h2⟩ := markTodo_keeps_done L index hi
    refine ⟨L1, h1, ?_⟩
    intro j t j1 hj ht htr
    simp only [Op.track, Option.some.injEq] at htr
    subst htr
    exact h2 j t hj ht
  | remove index =>
    refine ⟨_, rfl, ?_⟩
    intro j t j1 hj _ htr
    have h := removeTodo_keeps_done L index j t hj
    simp only [Op.track] at htr
    by_cases h1 : j < index
    · rw [if_pos h1] at htr
      cases htr
      exact h.1 h1
    · rw [if_neg h1] at htr
      by_cases h2 : j = index
      · rw [if_pos h2] at htr
        cases htr
      · rw [if_neg h2] at htr
        cases htr
        exact h.2 (by omega)

theorem runOps_keeps_done (ops : List Op) (L : List Todo) (hv : validOps L ops = true) :
    ∃ L1, runOps L ops = Except.ok L1 ∧
      ∀ (j : Nat) (t : Todo) (j1 : Nat), L[j]? = some t → t.isDone = some true → trackOps ops j = some j1 →
        L1[j1]? = some t := by
  induction ops generalizing L with
  | nil =>
    refine ⟨L, rfl, ?_⟩
    intro j t j1 hj _ htr
    simp only [trackOps, Option.some.injEq] at htr
    subst htr
    exact hj
  | cons op rest ih =>
    simp only [validOps, Bool.and_eq_true] at hv
    obtain ⟨hop, hrest⟩ := hv
    obtain ⟨L1, h1, hk1⟩ := apply_keeps_done L op hop
    rw [h1] at hrest
    obtain ⟨L2, h2, hk2⟩ := ih L1 hrest
    refine ⟨L2, by simp only [runOps, h1, h2], ?_⟩
    intro j t j2 hj ht htr
    simp only [trackOps] at htr
    cases hmid : op.track j with
    | none => simp [hmid] at htr
    | some jm =>
      simp only [hmid] at htr
      exact hk2 jm t j2 (hk1 j t jm hj ht hmid) ht htr

/-- C9: a record whose `isDone` is `true` is found again, unchanged, after `addTodo`
(same position), after `markTodo` with a valid index (same position) and after
`removeTodo` with a valid index other than its own (same position below the index, one
position down above it); and after every sequence of such calls, as long as it has not
been removed, it is in the list at the position the calls have moved it to, with
`isDone` still `true`. -/
theorem done_records_stay_done (L : List Todo) :
    (∀ (text location : String) (j : Nat) (t : Todo), L[j]? = some t → t.isDone = some true →
        (addTodo L text location)[j]? = some t) ∧
      (∀ (i : Nat), i < L.length → ∃ L1, markTodo L (i : Int) = Except.ok L1 ∧
        ∀ (j : Nat) (t : Todo), L[j]? = some t → t.isDone = some true → L1[j]? = some t) ∧
      (∀ (i : Nat), i < L.length → ∀ (j : Nat) (t : Todo), L[j]? = some t → t.isDone = some true →
        (j < i → (removeTodo L (i : Int))[j]? = some t) ∧
        (i < j → (removeTodo L (i : Int))[j - 1]? = some t)) ∧
      (∀ (ops : List Op), validOps L ops = true → ∃ L1, runOps L ops = Except.ok L1 ∧
        ∀ (j : Nat) (t : Todo) (j1 : Nat), L[j]? = some t → t.isDone = some true → trackOps ops j = some j1 →
          L1[j1]? = some t ∧ (L1[j1]?.bind Todo.isDone) = some true) := by
  refine ⟨?_, ?_, ?_, ?_⟩
  · intro text location j t hj _
    have hlt : j < L.length := getElem?_lt_length hj
    rw [addTodo_eq_append, List.getElem?_append_left hlt]
    exact hj
  · intro i hi
    exact markTodo_keeps_done L i hi
  · intro i _ j t hj _
    exact removeTodo_keeps_done L i j t hj
  · intro ops hv
    obtain ⟨L1, h1, hk⟩ := runOps_keeps_done ops L hv
    refine ⟨L1, h1, ?_⟩
    intro j t j1 hj ht htr
    have h := hk j t j1 hj ht htr
    exact ⟨h, by rw [h]; exact ht⟩

/-- Witness of C9: of three records, the first and the last done, remove the middle
one, add a record and mark position 0; the last record, first at position 2, is then at
position 1 and still done. -/
theorem done_records_stay_done_witness :
    ∃ L1, runOps [⟨"a", "b", some true⟩, ⟨"c", "d", some false⟩, ⟨"e", "f", some true⟩]
        [Op.remove 1, Op.add "x" "y", Op.mark 0] = Except.ok L1 ∧
      L1[1]? = some ⟨"e", "f", some true⟩ ∧ (L1[1]?.bind Todo.isDone) = some true := by
  obtain ⟨L1, h1, h2⟩ := (done_records_stay_done
    [⟨"a", "b", some true⟩, ⟨"c", "d", some false⟩, ⟨"e", "f", some true⟩]).2.2.2
    [Op.remove 1, Op.add "x" "y", Op.mark 0] (by decide)
  exact ⟨L1, h1, h2 2 ⟨"e", "f", some true⟩ 1 (by decide) rfl (by decide)⟩

/-! ## Indices out of range -/

theorem splice_one_neg {α : Type} (arr : List α) (start : Int) (h : start < 0) :
    splice arr start 1 = arr.eraseIdx ((arr.length : Int) + start).toNat := by
  rw [← splice_one_natCast]
  unfold splice
  have e1 : (if start < 0 then max ((arr.length : Int) + start) 0
      else min start (arr.length : Int)) = ((((arr.length : Int) + start).toNat : Nat) : Int) := by
    rw [if_pos h]; omega
  have e2 : (if ((((arr.length : Int) + start).toNat : Nat) : Int) < 0
      then max ((arr.length : Int) + ((((arr.length : Int) + start).toNat : Nat) : Int)) 0
      else min ((((arr.length : Int) + start).toNat : Nat) : Int) (arr.length : Int)) =
        ((((arr.length : Int) + start).toNat : Nat) : Int) := by
    rw [if_neg (by omega)]; omega
  simp only [e1, e2]

theorem removeTodo_eq_eraseIdx (L : List Todo) (index : Int) :
    removeTodo L index =
      L.eraseIdx (if index < 0 then ((L.length : Int) + index).toNat else index.toNat) := by
  unfold removeTodo
  by_cases h : index < 0
  · rw [if_pos h]
    exact splice_one_neg L index h
  · rw [if_neg h]
    have e : index = ((index.toNat : Nat) : Int) := by omega
    conv_lhs => rw [e]
    exact splice_one_natCast L index.toNat

/-- C10, as stated, fails: on the initial list, whose only position is 0,
`markTodo(1)` raises a `TypeError`. -/
theorem markTodo_out_of_range_counterexample :
    markTodo initialTodos 1 = Except.error JsError.typeError := by
  rfl

/-- C10 (amended): for every list and every integer index, `removeTodo(index)` raises
nothing: it returns the list without the record at `index`, where a negative index
counts from the end and stops at the first position, so it either returns the list
unchanged (always so when `index` is at or past the length) or a list one record
shorter; `markTodo(index)` completes its mutation exactly when `0 ≤ index < length`,
and raises a `TypeError` for every other index. -/
theorem mark_remove_at_any_index (L : List Todo) (index : Int) :
    removeTodo L index =
        L.eraseIdx (if index < 0 then ((L.length : Int) + index).toNat else index.toNat) ∧
      (removeTodo L index = L ∨ (removeTodo L index).length + 1 = L.length) ∧
      ((L.length : Int) ≤ index → removeTodo L index = L) ∧
      ((0 ≤ index ∧ index < (L.length : Int)) →
        ∃ L1, markTodo L index = Except.ok L1 ∧ L1.length = L.length ∧
          L1[index.toNat]?.map Todo.isDone = some (some true)) ∧
      (¬ (0 ≤ index ∧ index < (L.length : Int)) →
        markTodo L index = Except.error JsError.typeError) := by
  refine ⟨removeTodo_eq_eraseIdx L index, ?_, ?_, ?_, markTodo_of_not_inRange L index⟩
  · rw [removeTodo_eq_eraseIdx]
    generalize (if index < 0 then ((L.length : Int) + index).toNat else index.toNat) = k
    by_cases hk : k < L.length
    · right
      rw [List.length_eraseIdx_of_lt hk]
      omega
    · left
      exact List.eraseIdx_of_length_le (by omega)
  · intro h
    rw [removeTodo_eq_eraseIdx, if_neg (by omega)]
    exact List.eraseIdx_of_length_le (by omega)
  · intro h
    have e : index = ((index.toNat : Nat) : Int) := by omega
    have hi : index.toNat < L.length := by omega
    refine ⟨L.set index.toNat { L[index.toNat] with isDone := some true }, ?_, by simp, ?_⟩
    · conv_lhs => rw [e]
      exact markTodo_natCast L index.toNat hi
    · simp [List.getElem?_set, hi]

/-- Witness of C10: on the initial list, `markTodo(0)` completes and `markTodo(-1)`
raises. -/
theorem mark_remove_at_any_index_witness :
    (∃ L1, markTodo initialTodos 0 = Except.ok L1 ∧ L1.length = initialTodos.length ∧
        L1[(0 : Int).toNat]?.map Todo.isDone = some (some true)) ∧
      markTodo initialTodos (-1) = Except.error JsError.typeError :=
  ⟨(mark_remove_at_any_index initialTodos 0).2.2.2.1 (by decide),
    (mark_remove_at_any_index initialTodos (-1)).2.2.2.2 (by decide)⟩

end MemLoc
